import Mathlib

/-!
Verification development for the hospitalization-model repository.

The core under scrutiny is `src/causal_model/causal_model.py` (class
`CausalModel`: `simulate`, `monte_carlo`, `_get_mape`, `calibrate`,
`predict`, `update`), `src/utils/error_functions.py` (`mape`) and the
data loaders `src/data_loader/occupancy.py` / `src/data_loader/cases.py`.

Modelling conventions:
- machine integers are `Nat`/`Int`; the float parameters and float
  arithmetic of the source are modelled over `ℚ` (exact rationals);
  binary floating-point rounding error is not modelled;
- the random draws of `numpy` (`rng.poisson`, rounded `truncnorm.rvs`)
  are non-negative integers that are a deterministic function of
  `(worker_id, simulation_seed)` and of the draw index inside the batch;
  they are abstracted as given streams `ℕ → ℕ` (one per worker), so a
  theorem quantifying over the streams covers every possible draw;
- `numpy` slice assignment `occupancy[begin:end] += 1` silently clips
  the interval to the existing indices of the array; the embedding
  `addInterval` reproduces exactly that clipping;
- code that can only fail (a `raise`, or a non-finite float propagating
  out of a division by zero) is embedded with `Except`/`Option`.
-/

/-- `CausalModel.simulate` line 189:
`hospitalizations = list(map(lambda x: int(np.floor(x * self.hospitalization_p)), self.cases))`.
Daily case counts are non-negative integers.  For `hospitalization_p ≥ 0` the
floor is non-negative and `Int.toNat` is exact.  For `hospitalization_p < 0`
the source raises `ValueError` earlier (the sample batch would get a negative
`size`), so the source `simulate` returns no value there; theorems therefore
carry the hypothesis `0 ≤ p`. -/
def hospitalizations (p : ℚ) (cases : List ℕ) : List ℕ :=
  cases.map fun c => (⌊(c : ℚ) * p⌋).toNat

/-- `occupancy[lo:hi] += 1` on a numpy integer array: every existing index in
the half-open interval `[lo, hi)` is incremented; indices past the end of the
array are silently clipped away. -/
def addInterval : List ℕ → ℕ → ℕ → List ℕ
  | [], _, _ => []
  | c :: rest, lo, hi =>
      (if lo = 0 ∧ 0 < hi then c + 1 else c) :: addInterval rest (lo - 1) (hi - 1)

/-- The inner loop of `CausalModel.simulate` (lines 195-198): for each of the
`k` admissions of day `t`, draw index `pos + i` of the batch gives the delay
and the stay, and the interval `[t+d, t+d+s+1)` is incremented. -/
def admitLoop (d s : ℕ → ℕ) (t pos k : ℕ) (occ : List ℕ) : List ℕ :=
  (List.range k).foldl
    (fun o i => addInterval o (t + d (pos + i)) (t + d (pos + i) + s (pos + i) + 1)) occ

/-- The outer loop of `CausalModel.simulate` (lines 194-199): day counter `t`
and batch position `pos` advance together, `pos` by the admission count of the
day, so the draws are consumed from one batch laid out by day. -/
def simGo (d s : ℕ → ℕ) : List ℕ → ℕ → ℕ → List ℕ → List ℕ
  | [], _, _, occ => occ
  | h :: rest, t, pos, occ => simGo d s rest (t + 1) (pos + h) (admitLoop d s t pos h occ)

/-- `CausalModel.simulate`: the occupancy array is created with
`np.zeros(n)` for `n = len(self.cases)` (the buffered series length), filled
by the double loop, and the first `buffer` entries are stripped from the
returned array. -/
def simulateSeries (p : ℚ) (cases : List ℕ) (d s : ℕ → ℕ) (buffer : ℕ) : List ℕ :=
  (simGo d s (hospitalizations p cases) 0 0 (List.replicate cases.length 0)).drop buffer

/-- Number of admissions of day `t` (batch positions `pos..pos+k-1`) whose
stay interval `[t+d, t+d+s+1)` covers day `m`. -/
def dayCover (d s : ℕ → ℕ) (t pos k m : ℕ) : ℕ :=
  (List.range k).countP fun i =>
    decide (t + d (pos + i) ≤ m ∧ m < t + d (pos + i) + s (pos + i) + 1)

/-- Total number of admissions, over the remaining days of the series (first
day `t`, first batch position `pos`), whose stay interval covers day `m`. -/
def coverFrom (d s : ℕ → ℕ) (m : ℕ) : List ℕ → ℕ → ℕ → ℕ
  | [], _, _ => 0
  | h :: rest, t, pos => dayCover d s t pos h m + coverFrom d s m rest (t + 1) (pos + h)

/-- The value the code actually produces for entry `m` of the returned array:
the count of admissions covering day `buffer + m`, present only while
`buffer + m` is a day of the buffered series. -/
def occupancySpec (p : ℚ) (cases : List ℕ) (d s : ℕ → ℕ) (buffer m : ℕ) : Option ℕ :=
  if buffer + m < cases.length then
    some (coverFrom d s (buffer + m) (hospitalizations p cases) 0 0)
  else none

/-- Largest interval endpoint `t + d + s + 1` over all admissions: the size an
occupancy array would need in order to cover the longest delay plus stay, as
claim C1 words it. -/
def intervalEndMax (d s : ℕ → ℕ) : List ℕ → ℕ → ℕ → ℕ
  | [], _, _ => 0
  | h :: rest, t, pos =>
      max (((List.range h).map fun i => t + d (pos + i) + s (pos + i) + 1).foldr max 0)
        (intervalEndMax d s rest (t + 1) (pos + h))

/-- The simulation as claim C1 words it (refinement comparison definition,
written from the claim, not from the source): the occupancy array is sized to
cover the longest possible delay plus stay, so occupancy accumulates with
unbounded look-ahead and no increment is clipped. -/
def simulateUnbounded (p : ℚ) (cases : List ℕ) (d s : ℕ → ℕ) (buffer : ℕ) : List ℕ :=
  (simGo d s (hospitalizations p cases) 0 0
    (List.replicate (max cases.length (intervalEndMax d s (hospitalizations p cases) 0 0)) 0)).drop buffer

/-- Execution mode of `CausalModel.monte_carlo` / `predict` (`method`
argument).  Any other string raises `ValueError`, so the embedding is a closed
enumeration. -/
inductive Mode where
  | parallel : Mode
  | sequential : Mode
deriving DecidableEq

/-- `np.around`: round half to even (banker's rounding), here on an exact
rational.  `result.astype(int)` then converts the integral float exactly. -/
def roundHalfEven (q : ℚ) : ℤ :=
  if q - (⌊q⌋ : ℚ) < 1 / 2 then ⌊q⌋
  else if (1 : ℚ) / 2 < q - (⌊q⌋ : ℚ) then ⌊q⌋ + 1
  else if ⌊q⌋ % 2 = 0 then ⌊q⌋ else ⌊q⌋ + 1

/-- `np.around(np.mean(np.array(sims), axis=0))` followed by `.astype(int)`:
the elementwise arithmetic mean of the equal-length replica arrays, rounded
half to even.  (`np.mean` of the empty stack is `nan`; the embedding is used
with at least one replica, matching every call site.) -/
def meanAround : List (List ℕ) → List ℤ
  | [] => []
  | s0 :: rest =>
      (List.range s0.length).map fun j =>
        roundHalfEven
          ((((s0 :: rest).map fun l => ((l.getD j 0 : ℕ) : ℚ)).sum) /
            (((s0 :: rest).length : ℕ) : ℚ))

/-- The live state of a `CausalModel` object.

Fields mirror the attributes of the Python class: the four live parameters,
the window (`_from_date`, `_to_date` as day numbers, `_buffer`), and the
cached arrays `self.cases` / `self.occupancy` recomputed by `update`.

The data loaders reached through `self.case_data.get_array` /
`self.occupancy_data.get_array` are deterministic functions of the window, so
they appear as the provider fields (region, bed type and age groups are fixed
inside them).  The two seeds and the distribution parameters act only through
`np.random.default_rng([worker_id, simulation_seed])` and the drawn batches;
by the determinism of the generator the draws are a function of the worker id
and the draw index, abstracted as the two stream fields (see the header
comment). -/
structure Model where
  hospitalization_p : ℚ
  poisson_lambda : ℚ
  truncnorm_loc : ℚ
  truncnorm_scale : ℚ
  fromDate : ℤ
  toDate : ℤ
  buffer : ℕ
  caseProvider : ℤ → ℤ → ℕ → List ℕ
  occProvider : ℤ → ℤ → List ℕ
  delayStream : ℕ → ℕ → ℕ
  stayStream : ℕ → ℕ → ℕ
  cases : List ℕ
  occupancy : List ℕ

/-- `CausalModel.simulate(worker_id)`: one replica over the cached buffered
case series, using the streams of worker `w`. -/
def Model.simulate (m : Model) (w : ℕ) : List ℕ :=
  simulateSeries m.hospitalization_p m.cases (m.delayStream w) (m.stayStream w) m.buffer

/-- `CausalModel.monte_carlo(n, method)`: runs replicas with worker ids
`0..n-1` and returns the rounded elementwise mean.  The `parallel` branch
submits `self.simulate(worker_id)` to a process pool and collects the futures
in submission order; each worker computes on its own copy of the (immutable
during the call) state, so both branches produce the same list of replicas. -/
def Model.monteCarlo (m : Model) (n : ℕ) (mode : Mode) : List ℤ :=
  match mode with
  | Mode.parallel => meanAround ((List.range n).map m.simulate)
  | Mode.sequential => meanAround ((List.range n).map m.simulate)

/-- A concrete two-day model used to exhibit the tie-breaking of the mean
rounding.  Worker 0 draws delay 1, stay 0; worker 1 draws delay 0 and stays
1 then 0.  With `p = 1` and cases `[1, 1]` the two replicas are `[0, 1]` and
`[1, 2]`, whose elementwise means are `1/2` and `3/2`. -/
def Mtie : Model where
  hospitalization_p := 1
  poisson_lambda := 0
  truncnorm_loc := 0
  truncnorm_scale := 1
  fromDate := 0
  toDate := 1
  buffer := 0
  caseProvider := fun _ _ _ => [1, 1]
  occProvider := fun _ _ => [1, 1]
  delayStream := fun w _ => if w = 0 then 1 else 0
  stayStream := fun w i => if w = 0 then 0 else if i = 0 then 1 else 0
  cases := [1, 1]
  occupancy := [1, 1]

/-- `CausalModel.update(...)`: omitted (None) arguments retain the prior
value; the cached `self.occupancy` and `self.cases` arrays are always
recomputed from the data providers for the (possibly new) window.  Region,
bed type and age groups are fixed inside the provider fields of the model, so
the embedded update carries the window arguments. -/
def Model.update (m : Model) (fromD? toD? : Option ℤ) (buffer? : Option ℕ) : Model :=
  { m with
    fromDate := fromD?.getD m.fromDate
    toDate := toD?.getD m.toDate
    buffer := buffer?.getD m.buffer
    occupancy := m.occProvider (fromD?.getD m.fromDate) (toD?.getD m.toDate)
    cases := m.caseProvider (fromD?.getD m.fromDate) (toD?.getD m.toDate)
      (buffer?.getD m.buffer) }

/-- The Python slice `simulation[-days:]`: for `days = 0` the slice is
`simulation[0:]`, the whole array; for `days ≥ 1` it is the trailing `days`
entries (the whole array when `days` exceeds the length). -/
def pyLastSlice (days : ℕ) (l : List ℤ) : List ℤ :=
  if days = 0 then l else l.drop (l.length - days)

/-- `CausalModel.predict(days, n, method)`: extends the window end by `days`,
recomputes the cached arrays, runs `monte_carlo`, restores the previous
window end (recomputing the caches again) and returns `simulation[-days:]`.
The returned pair is (state after the call, returned array). -/
def Model.predict (m : Model) (days n : ℕ) (mode : Mode) : Model × List ℤ :=
  (((m.update none (some (m.toDate + (days : ℤ))) none).update none (some m.toDate) none),
    pyLastSlice days ((m.update none (some (m.toDate + (days : ℤ))) none).monteCarlo n mode))

/-- The cached arrays agree with the providers for the current window — the
invariant `CausalModel.__init__` establishes by calling `self.update()` and
every `update` re-establishes. -/
def windowConsistent (m : Model) : Prop :=
  m.cases = m.caseProvider m.fromDate m.toDate m.buffer ∧
    m.occupancy = m.occProvider m.fromDate m.toDate

/-- A concrete two-day window model (window days 0 and 1, buffer 0, all case
counts zero, occupancy one) whose providers grow with the window: used for the
`predict` day-count evaluations. -/
def Mwin : Model where
  hospitalization_p := 0
  poisson_lambda := 0
  truncnorm_loc := 0
  truncnorm_scale := 1
  fromDate := 0
  toDate := 1
  buffer := 0
  caseProvider := fun f t b => List.replicate ((t - f).toNat + 1 + b) 0
  occProvider := fun f t => List.replicate ((t - f).toNat + 1) 1
  delayStream := fun _ _ => 0
  stayStream := fun _ _ => 0
  cases := [0, 0]
  occupancy := [1, 1]

/-- `error_functions.mape` on exact values:
`np.mean(np.abs(actual - pred) / actual) * 100`, the elementwise absolute
percentage error averaged over the days.  (`actual` and `pred` have equal
length at every call site; `zip` pairs them elementwise.) -/
def mapeQ (actual pred : List ℚ) : ℚ :=
  ((((actual.zip pred).map fun ap => |ap.1 - ap.2| / ap.1).sum) /
    ((actual.length : ℕ) : ℚ)) * 100

/-- `error_functions.mape` as executed in floats: a zero entry of `actual`
makes `np.abs(actual - pred) / actual` non-finite (`inf`, or `nan` for `0/0`)
and propagates into the mean — there is no explicit handling anywhere in the
source; likewise `np.mean` of an empty array is `nan`.  The embedding returns
`none` exactly in those fault cases and the exact rational value otherwise. -/
def mape (actual pred : List ℚ) : Option ℚ :=
  if actual.length = 0 ∨ actual.any fun a => decide (a = 0) then none
  else some (mapeQ actual pred)

/-- The `params` property setter of `CausalModel`: writes the four live
parameter attributes from the vector
`[hospitalization_p, poisson_lambda, truncnorm_loc, truncnorm_scale]`. -/
def Model.setParams (m : Model) (v : Fin 4 → ℚ) : Model :=
  { m with
    hospitalization_p := v 0
    poisson_lambda := v 1
    truncnorm_loc := v 2
    truncnorm_scale := v 3 }

/-- The `params` property getter of `CausalModel`. -/
def Model.paramsVec (m : Model) : Fin 4 → ℚ :=
  ![m.hospitalization_p, m.poisson_lambda, m.truncnorm_loc, m.truncnorm_scale]

/-- `CausalModel._get_mape(params, n, method='sequential')` as invoked during
calibration: set the live parameters on the evaluating copy, run the
sequential Monte Carlo, and compare with the cached reference occupancy by
`mape`. -/
def Model.getMape (m : Model) (v : Fin 4 → ℚ) (nSim : ℕ) : Option ℚ :=
  mape (m.occupancy.map fun k => ((k : ℕ) : ℚ))
    (((m.setParams v).monteCarlo nSim Mode.sequential).map fun z => ((z : ℤ) : ℚ))

/-- `Mwin` with a zero entry in the reference occupancy window. -/
def Mzero : Model :=
  { Mwin with occupancy := [0, 1] }

/-- Modelled from the spec: `scipy.optimize.differential_evolution` is a
library dependency whose code is not part of this repository; spec sections
4.4 and 9 fix its semantics (quasi-random initialization inside the bounds,
`randtobest1bin` mutation combining the best candidate with two random
members, binomial crossover, bound clamping of every trial, deferred
generational updates, best member returned).  All optimizer randomness
(member indices, crossover mask, quasi-random start points) is a
deterministic function of the calibration seed and is abstracted as the
streams of this configuration. -/
structure DEConfig where
  npop : ℕ
  rawInit : ℕ → Fin 4 → ℚ
  r1 : ℕ → ℕ → ℕ
  r2 : ℕ → ℕ → ℕ
  scaleF : ℚ
  crossMask : ℕ → ℕ → Fin 4 → Bool

/-- Clamp a candidate componentwise into the bounds box (the optimizer keeps
every trial vector inside the caller-supplied bounds). -/
def clampToBounds (bounds : Fin 4 → ℚ × ℚ) (v : Fin 4 → ℚ) : Fin 4 → ℚ :=
  fun j => max (bounds j).1 (min (v j) (bounds j).2)

/-- Modelled from the spec: the quasi-random (`init='sobol'`) start
population, scaled into the bounds; with `x0` supplied the first member is
replaced by the clipped `x0`. -/
def initPop (bounds : Fin 4 → ℚ × ℚ) (cfg : DEConfig) (x0? : Option (Fin 4 → ℚ)) :
    List (Fin 4 → ℚ) :=
  match x0? with
  | none => (List.range cfg.npop).map fun i => clampToBounds bounds (cfg.rawInit i)
  | some x0 =>
    match (List.range cfg.npop).map fun i => clampToBounds bounds (cfg.rawInit i) with
    | [] => []
    | _ :: rest => clampToBounds bounds x0 :: rest

/-- Best (lowest objective) member of a population. -/
def bestMember (f : (Fin 4 → ℚ) → ℚ) (pop : List (Fin 4 → ℚ)) : Fin 4 → ℚ :=
  pop.foldl (fun b x => if f x < f b then x else b) (pop.headD fun _ => 0)

/-- Modelled from the spec: one deferred (synchronous) generation of
`randtobest1bin`: for every member `xj`, mutate towards the best member and
along the difference of two members chosen by the random streams, apply
binomial crossover with the parent, clamp the trial into the bounds, and keep
the better of trial and parent.  All trials are computed from the unmodified
previous generation. -/
def deStep (f : (Fin 4 → ℚ) → ℚ) (bounds : Fin 4 → ℚ × ℚ) (cfg : DEConfig) (g : ℕ)
    (pop : List (Fin 4 → ℚ)) : List (Fin 4 → ℚ) :=
  (List.range pop.length).map fun j =>
    let xj := pop.getD j fun _ => 0
    let best := bestMember f pop
    let va := pop.getD (cfg.r1 g j % pop.length) fun _ => 0
    let vb := pop.getD (cfg.r2 g j % pop.length) fun _ => 0
    let mutant := fun k => xj k + cfg.scaleF * (best k - xj k) + cfg.scaleF * (va k - vb k)
    let trial := clampToBounds bounds fun k => if cfg.crossMask g j k then mutant k else xj k
    if f trial ≤ f xj then trial else xj

/-- Modelled from the spec: the population after `g` generations. -/
def deIter (f : (Fin 4 → ℚ) → ℚ) (bounds : Fin 4 → ℚ × ℚ) (cfg : DEConfig)
    (x0? : Option (Fin 4 → ℚ)) : ℕ → List (Fin 4 → ℚ)
  | 0 => initPop bounds cfg x0?
  | g + 1 => deStep f bounds cfg g (deIter f bounds cfg x0? g)

/-- Modelled from the spec: run the evolution for up to `maxiter` generations
and return the best member of the final population (reaching `maxiter`
without convergence is a normal termination mode). -/
def differentialEvolution (f : (Fin 4 → ℚ) → ℚ) (bounds : Fin 4 → ℚ × ℚ)
    (cfg : DEConfig) (maxiter : ℕ) (x0? : Option (Fin 4 → ℚ)) : Fin 4 → ℚ :=
  bestMember f (deIter f bounds cfg x0? maxiter)

/-- Componentwise membership of a candidate in the bounds box, inclusive. -/
def inBounds (bounds : Fin 4 → ℚ × ℚ) (v : Fin 4 → ℚ) : Prop :=
  ∀ j, (bounds j).1 ≤ v j ∧ v j ≤ (bounds j).2

/-- The total surrogate of the objective used to drive the modelled optimizer:
`mapeQ` over exact rationals.  It agrees with the float objective whenever the
reference occupancy has no zero entry (the fault case is the subject of the
`mape` embedding); the bounds-respect property proved about the optimizer does
not depend on objective values. -/
def Model.objectiveQ (m : Model) (nSim : ℕ) (v : Fin 4 → ℚ) : ℚ :=
  mapeQ (m.occupancy.map fun k => ((k : ℕ) : ℚ))
    (((m.setParams v).monteCarlo nSim Mode.sequential).map fun z => ((z : ℤ) : ℚ))

/-- `CausalModel.calibrate(n, bounds, maxiter, use_x0, disp)`: runs the
optimizer on `_get_mape(·, n, 'sequential')` (the population evaluation
happens in worker processes on copies of the state — `workers=-1` — so it
does not touch the live object), writes the best vector into the live
parameters as the last step, and returns it. -/
def Model.calibrate (m : Model) (nSim : ℕ) (bounds : Fin 4 → ℚ × ℚ) (maxiter : ℕ)
    (cfg : DEConfig) (use_x0 : Bool) : Model × (Fin 4 → ℚ) :=
  (m.setParams (differentialEvolution (m.objectiveQ nSim) bounds cfg maxiter
      (if use_x0 then some m.paramsVec else none)),
    differentialEvolution (m.objectiveQ nSim) bounds cfg maxiter
      (if use_x0 then some m.paramsVec else none))

/-- One row of the occupancy CSV (`Hospitalisierung.csv`): report date,
region, ICU beds occupied, normal beds occupied. -/
structure OccRow where
  meldedatum : ℤ
  bundesland : String
  intensivBetten : ℕ
  normalBetten : ℕ

/-- `OccupancyData.get_df(from_date, to_date, state, type)`: select the bed
column (`ValueError` for any other selector, raised before any filtering),
filter rows to the requested region, then to the requested date range.  There
is no check that the requested range lies inside the available data: the date
filter simply intersects. -/
def occGetDf (rows : List OccRow) (fromD toD : ℤ) (state btype : String) :
    Except String (List (ℤ × ℕ)) :=
  if btype = "ICU" then
    Except.ok (((rows.filter fun r => decide (r.bundesland = state)).filter
      fun r => decide (fromD ≤ r.meldedatum ∧ r.meldedatum ≤ toD)).map
      fun r => (r.meldedatum, r.intensivBetten))
  else if btype = "normal" then
    Except.ok (((rows.filter fun r => decide (r.bundesland = state)).filter
      fun r => decide (fromD ≤ r.meldedatum ∧ r.meldedatum ≤ toD)).map
      fun r => (r.meldedatum, r.normalBetten))
  else Except.error "type must be either ICU or normal"

/-- `OccupancyData.get_array`: the values of the data frame. -/
def occGetArray (rows : List OccRow) (fromD toD : ℤ) (state btype : String) :
    Except String (List ℕ) :=
  (occGetDf rows fromD toD state btype).map fun l => l.map Prod.snd

/-- One row of the case CSV (`CovidFaelle_Altersgruppe.csv`): date, region,
age group, cumulative case count. -/
structure CaseRow where
  time : ℤ
  bundesland : String
  altersgruppe : String
  anzahl : ℤ

/-- Insertion into a sorted list of group keys (pandas `groupby` sorts its
keys ascending). -/
def insertSorted (d : ℤ) : List ℤ → List ℤ
  | [] => [d]
  | x :: xs => if d ≤ x then d :: x :: xs else x :: insertSorted d xs

/-- The distinct keys, ascending. -/
def sortedKeys (l : List ℤ) : List ℤ :=
  l.dedup.foldr insertSorted []

/-- `DataFrame.diff()` on the summed series, rows after the first: each entry
is the difference with its predecessor. -/
def diffGo (prev : ℤ × ℤ) : List (ℤ × ℤ) → List (ℤ × Option ℤ)
  | [] => []
  | cur :: rest => (cur.1, some (cur.2 - prev.2)) :: diffGo cur rest

/-- `DataFrame.diff()`: the first row becomes `NaN` (embedded `none`). -/
def diffMarked : List (ℤ × ℤ) → List (ℤ × Option ℤ)
  | [] => []
  | g0 :: rest => (g0.1, none) :: diffGo g0 rest

/-- `CaseData.get_df` lines 67-68: filter to the region, then to the selected
age groups. -/
def caseFiltered (rows : List CaseRow) (state : String) (ageGroups : List String) :
    List CaseRow :=
  (rows.filter fun r => decide (r.bundesland = state)).filter
    fun r => decide (r.altersgruppe ∈ ageGroups)

/-- `CaseData.get_df` line 69: `groupby(['Time']).sum()` — the cumulative
counts summed per date, dates ascending. -/
def caseGrouped (rows : List CaseRow) (state : String) (ageGroups : List String) :
    List (ℤ × ℤ) :=
  (sortedKeys ((caseFiltered rows state ageGroups).map fun r => r.time)).map fun dday =>
    (dday, (((caseFiltered rows state ageGroups).filter fun r => decide (r.time = dday)).map
      fun r => r.anzahl).sum)

/-- `CaseData.get_df` line 73: keep the diffed rows inside
`[from_date - buffer, to_date]`; no check against the available data range. -/
def caseWindow (rows : List CaseRow) (fromD toD : ℤ) (state : String)
    (ageGroups : List String) (buffer : ℕ) : List (ℤ × Option ℤ) :=
  (diffMarked (caseGrouped rows state ageGroups)).filter fun r =>
    decide (fromD - (buffer : ℤ) ≤ r.1 ∧ r.1 ≤ toD)

/-- `CaseData.get_df`: the windowed day-over-day differences, converted with
`astype(int)` — which raises if the `NaN` of the first diffed row survived the
window filter. -/
def caseGetDf (rows : List CaseRow) (fromD toD : ℤ) (state : String)
    (ageGroups : List String) (buffer : ℕ) : Except String (List (ℤ × ℤ)) :=
  if (caseWindow rows fromD toD state ageGroups buffer).any fun r => r.2.isNone then
    Except.error "cannot convert non-finite values to integer"
  else
    Except.ok ((caseWindow rows fromD toD state ageGroups buffer).map
      fun r => (r.1, r.2.getD 0))

/-- Two days of occupancy data for the region Wien only. -/
def occRows1 : List OccRow :=
  [{ meldedatum := 0, bundesland := "Wien", intensivBetten := 3, normalBetten := 5 },
   { meldedatum := 1, bundesland := "Wien", intensivBetten := 4, normalBetten := 6 }]

/-- Two days of cumulative case data for the region Wien, age group 25-34. -/
def caseRows1 : List CaseRow :=
  [{ time := 0, bundesland := "Wien", altersgruppe := "25-34", anzahl := 10 },
   { time := 1, bundesland := "Wien", altersgruppe := "25-34", anzahl := 13 }]

theorem addInterval_length (occ : List ℕ) (lo hi : ℕ) :
    (addInterval occ lo hi).length = occ.length := by
  induction occ generalizing lo hi with
  | nil => rfl
  | cons c rest ih => simp [addInterval, ih]

theorem addInterval_getElem? (occ : List ℕ) (lo hi m : ℕ) :
    (addInterval occ lo hi)[m]? =
      occ[m]?.map (fun c => if lo ≤ m ∧ m < hi then c + 1 else c) := by
  induction occ generalizing lo hi m with
  | nil => simp [addInterval]
  | cons c rest ih =>
    cases m with
    | zero => simp [addInterval, Nat.le_zero]
    | succ m =>
      simp only [addInterval, List.getElem?_cons_succ, ih]
      cases h : rest[m]? with
      | none => simp
      | some v =>
        simp only [Option.map_some']
        by_cases hc : lo ≤ m + 1 ∧ m + 1 < hi
        · rw [if_pos (show lo - 1 ≤ m ∧ m < hi - 1 by omega), if_pos hc]
        · rw [if_neg (show ¬(lo - 1 ≤ m ∧ m < hi - 1) by omega), if_neg hc]

theorem admitLoop_succ (d s : ℕ → ℕ) (t pos k : ℕ) (occ : List ℕ) :
    admitLoop d s t pos (k + 1) occ =
      addInterval (admitLoop d s t pos k occ) (t + d (pos + k))
        (t + d (pos + k) + s (pos + k) + 1) := by
  unfold admitLoop
  rw [List.range_succ, List.foldl_append]
  rfl

theorem dayCover_succ (d s : ℕ → ℕ) (t pos k m : ℕ) :
    dayCover d s t pos (k + 1) m =
      dayCover d s t pos k m +
        (if t + d (pos + k) ≤ m ∧ m < t + d (pos + k) + s (pos + k) + 1 then 1 else 0) := by
  unfold dayCover
  rw [List.range_succ, List.countP_append]
  simp [List.countP_cons]

theorem admitLoop_length (d s : ℕ → ℕ) (t pos k : ℕ) (occ : List ℕ) :
    (admitLoop d s t pos k occ).length = occ.length := by
  induction k with
  | zero => rfl
  | succ k ih => rw [admitLoop_succ, addInterval_length, ih]

theorem admitLoop_getElem? (d s : ℕ → ℕ) (t pos k m : ℕ) (occ : List ℕ) :
    (admitLoop d s t pos k occ)[m]? =
      occ[m]?.map (fun c => c + dayCover d s t pos k m) := by
  induction k with
  | zero =>
    cases h : occ[m]? <;> simp [admitLoop, dayCover, h]
  | succ k ih =>
    rw [admitLoop_succ, addInterval_getElem?, ih, dayCover_succ]
    cases h : occ[m]? with
    | none => simp
    | some v =>
      simp only [Option.map_some']
      by_cases hc : t + d (pos + k) ≤ m ∧ m < t + d (pos + k) + s (pos + k) + 1
      · rw [if_pos hc, if_pos hc, Nat.add_assoc]
      · rw [if_neg hc, if_neg hc, Nat.add_zero]

theorem simGo_length (d s : ℕ → ℕ) (hosp : List ℕ) (t pos : ℕ) (occ : List ℕ) :
    (simGo d s hosp t pos occ).length = occ.length := by
  induction hosp generalizing t pos occ with
  | nil => rfl
  | cons h rest ih => rw [simGo, ih, admitLoop_length]

theorem simGo_getElem? (d s : ℕ → ℕ) (hosp : List ℕ) (t pos m : ℕ) (occ : List ℕ) :
    (simGo d s hosp t pos occ)[m]? =
      occ[m]?.map (fun c => c + coverFrom d s m hosp t pos) := by
  induction hosp generalizing t pos occ with
  | nil =>
    cases h : occ[m]? <;> simp [simGo, coverFrom, h]
  | cons h rest ih =>
    rw [simGo, ih, admitLoop_getElem?]
    cases ho : occ[m]? with
    | none => simp
    | some v => simp [coverFrom, Nat.add_assoc]

theorem replicate_zero_getElem? (n i : ℕ) :
    (List.replicate n (0 : ℕ))[i]? = if i < n then some 0 else none := by
  induction n generalizing i with
  | zero => simp
  | succ n ih =>
    cases i with
    | zero => simp [List.replicate]
    | succ i => simp [List.replicate, ih]

theorem simulate_getElem? (p : ℚ) (cases : List ℕ) (d s : ℕ → ℕ) (buffer m : ℕ) :
    (simulateSeries p cases d s buffer)[m]? = occupancySpec p cases d s buffer m := by
  unfold simulateSeries occupancySpec
  rw [List.getElem?_drop, simGo_getElem?, replicate_zero_getElem?]
  by_cases h : buffer + m < cases.length
  · rw [if_pos h, if_pos h]
    simp
  · rw [if_neg h, if_neg h]
    rfl

unseal Rat.mul Rat.add Rat.sub Rat.inv in
/-- C1 counterexample.  One case on day 0, `hospitalization_p = 1`, buffer 0,
delay 0, stay 2: the admission occupies the interval `[0, 3)`.  The code sizes
the occupancy array to the buffered series length (1), so the increments for
days 1 and 2 are clipped away and `simulateSeries` returns `[1]`; an array sized to
cover the longest delay plus stay, as the claim words it (`simulateUnbounded`),
would return `[1, 1, 1]`.  The claimed unbounded look-ahead therefore does not
hold of the code. -/
theorem simulate_unbounded_lookahead_cex :
    simulateSeries 1 [1] (fun _ => 0) (fun _ => 2) 0 = [1] ∧
      simulateUnbounded 1 [1] (fun _ => 0) (fun _ => 2) 0 = [1, 1, 1] ∧
      ([1] : List ℕ) ≠ [1, 1, 1] := by
  refine ⟨by decide, by decide, by decide⟩

/-- C1 (amended).  For every buffered case series, every `hospitalization_p ≥ 0`,
every delay/stay stream, and every buffer, entry `m` of the array returned by
`simulateSeries` is the number of admissions — the admission count of day `t` being
`int(floor(cases[t] * hospitalization_p))`, with delays and stays read from a
single batch indexed by the running prefix sum of the admission counts — whose
interval `[t+d, t+d+s+1)` covers day `buffer + m`; entries exist exactly for
the days of the buffered series (`buffer + m < len(cases)`), increments beyond
the array end being clipped, and the first `buffer` entries are stripped. -/
theorem simulate_characterization (p : ℚ) (hp : 0 ≤ p) (cases : List ℕ)
    (d s : ℕ → ℕ) (buffer m : ℕ) :
    (simulateSeries p cases d s buffer)[m]? = occupancySpec p cases d s buffer m :=
  simulate_getElem? p cases d s buffer m

theorem simulate_characterization_witness :
    (0 : ℚ) ≤ 1 ∧
      (simulateSeries 1 [1] (fun _ => 0) (fun _ => 2) 0)[0]? =
        occupancySpec 1 [1] (fun _ => 0) (fun _ => 2) 0 0 :=
  ⟨by norm_num, simulate_characterization 1 (by norm_num) [1] (fun _ => 0) (fun _ => 2) 0 0⟩

unseal Rat.mul Rat.add Rat.sub Rat.inv in
/-- C10.  `simulateSeries` is total for every sampled delay and stay: the returned
array always has length `len(cases) - buffer` no matter how far the stay
intervals extend (so there is no out-of-bounds error), and on the concrete
over-extending input (one admission on day 0 with delay 0 and stay 2 in a
1-day series) the increment is clipped at the array end: the two bed-days
falling after the window are dropped and the result is `[1]`. -/
theorem simulate_total_clip :
    (∀ (p : ℚ), 0 ≤ p → ∀ (cases : List ℕ) (d s : ℕ → ℕ) (buffer : ℕ),
        (simulateSeries p cases d s buffer).length = cases.length - buffer) ∧
      simulateSeries 1 [1] (fun _ => 0) (fun _ => 2) 0 = [1] := by
  constructor
  · intro p hp cases d s buffer
    unfold simulateSeries
    rw [List.length_drop, simGo_length, List.length_replicate]
  · decide

theorem simulate_total_clip_witness :
    (0 : ℚ) ≤ 1 ∧
      (simulateSeries 1 [3, 4] (fun _ => 1) (fun _ => 5) 1).length = [3, 4].length - 1 :=
  ⟨by norm_num, simulate_total_clip.1 1 (by norm_num) [3, 4] (fun _ => 1) (fun _ => 5) 1⟩

theorem roundHalfEven_intCast (z : ℤ) : roundHalfEven (z : ℚ) = z := by
  unfold roundHalfEven
  rw [Int.floor_intCast]
  norm_num

theorem roundHalfEven_natCast (k : ℕ) : roundHalfEven ((k : ℕ) : ℚ) = (k : ℤ) := by
  rw [show ((k : ℕ) : ℚ) = ((k : ℤ) : ℚ) by push_cast; rfl]
  exact roundHalfEven_intCast k

theorem map_range_getD {α : Type} (l : List ℕ) (f : ℕ → α) :
    (List.range l.length).map (fun j => f (l.getD j 0)) = l.map f := by
  induction l with
  | nil => rfl
  | cons a tl ih =>
    rw [List.length_cons, List.range_succ_eq_map, List.map_cons, List.map_map]
    rw [show ((fun j => f ((a :: tl).getD j 0)) ∘ Nat.succ) =
          (fun j => f (tl.getD j 0)) from rfl]
    rw [ih]
    rfl

theorem meanAround_single (s : List ℕ) :
    meanAround [s] = s.map Int.ofNat := by
  simp only [meanAround]
  have h : (fun j => roundHalfEven
        ((([s].map fun l => ((l.getD j 0 : ℕ) : ℚ)).sum) /
          ((([s] : List (List ℕ)).length : ℕ) : ℚ))) =
      fun j => Int.ofNat (s.getD j 0) := by
    funext j
    simp [roundHalfEven_natCast, Int.ofNat_eq_natCast]
  rw [h, map_range_getD]

/-- C2.  `monte_carlo(1, mode)` equals `simulate(0)` exactly, element for
element, in both execution modes: the mean of one replica is the replica, and
rounding an integral value half to even returns it unchanged, so the
mean-and-round aggregation introduces no discrepancy. -/
theorem monte_carlo_one (m : Model) (mode : Mode) :
    m.monteCarlo 1 mode = (m.simulate 0).map Int.ofNat := by
  have h : (List.range 1).map m.simulate = [m.simulate 0] := by
    rw [show List.range 1 = [0] from rfl]
    rfl
  cases mode <;> simp only [Model.monteCarlo, h, meanAround_single]

unseal Rat.mul Rat.add Rat.sub Rat.inv in
/-- C9.  The two execution modes of `monte_carlo` compute the identical
rounded mean (the parallel branch collects the same replicas in the same
worker order), and the rounding of a fractional mean exactly halfway between
two integers is ties-to-even (`np.around` semantics): on the concrete model
`Mtie` the elementwise means are `1/2` and `3/2`, and both modes return
`[0, 2]` — `0.5` rounds down to the even `0` and `1.5` rounds up to the even
`2`. -/
theorem monte_carlo_rounding_ties_even :
    (∀ (m : Model) (n : ℕ), m.monteCarlo n Mode.parallel = m.monteCarlo n Mode.sequential) ∧
      Mtie.monteCarlo 2 Mode.parallel = [0, 2] ∧
      Mtie.monteCarlo 2 Mode.sequential = [0, 2] := by
  refine ⟨fun m n => rfl, by decide, by decide⟩

unseal Rat.mul Rat.add Rat.sub Rat.inv in
/-- C5 evaluation at the failing input `days = 0`.  On the two-day window
model `Mwin`, `predict(0, 1, sequential)` returns the whole simulated
window — 2 entries — instead of the 0 entries the claim requires:
`simulation[-0:]` is `simulation[0:]` in Python. -/
theorem predict_zero_days_eval :
    ((Mwin.predict 0 1 Mode.sequential).2).length = 2 ∧ (2 : ℕ) ≠ 0 := by
  refine ⟨by decide, by decide⟩

/-- C4 counterexample.  On a model whose reference occupancy contains a zero
day, the objective evaluation does not resolve the division by zero by any
explicit documented policy: the division produces a non-finite value that
propagates out of `_get_mape` (embedded as `none`).  No code path in
`error_functions.mape` or `CausalModel._get_mape` inspects for zeros. -/
theorem objective_zero_denominator_cex :
    Mzero.getMape (fun _ => 1) 1 = none := by
  decide

/-- C4 (amended).  The calibration objective equals the MAPE formula — mean
over days of `|actual - pred| / actual` times 100 — between the reference
occupancy and the aggregated sequential simulation whenever the reference
window is nonempty and contains no zero entry; when the reference contains a
zero entry the evaluation propagates the numeric fault of the division by
zero (non-finite value, embedded as `none`) — there is no explicit documented
policy for that case. -/
theorem mape_objective_spec :
    (∀ (m : Model) (v : Fin 4 → ℚ) (nSim : ℕ),
        m.occupancy ≠ [] → (∀ k ∈ m.occupancy, k ≠ 0) →
        m.getMape v nSim =
          some (mapeQ (m.occupancy.map fun k => ((k : ℕ) : ℚ))
            (((m.setParams v).monteCarlo nSim Mode.sequential).map
              fun z => ((z : ℤ) : ℚ)))) ∧
      (∀ (m : Model) (v : Fin 4 → ℚ) (nSim : ℕ),
        0 ∈ m.occupancy → m.getMape v nSim = none) := by
  constructor
  · intro m v nSim hne hz
    unfold Model.getMape mape
    rw [if_neg]
    intro hcon
    rcases hcon with hlen | hany
    · exact hne (by simpa using hlen)
    · rcases List.any_eq_true.mp hany with ⟨a, ha, hdec⟩
      rcases List.mem_map.mp ha with ⟨k, hk, rfl⟩
      exact hz k hk (Nat.cast_eq_zero.mp (of_decide_eq_true hdec))
  · intro m v nSim h0
    unfold Model.getMape mape
    rw [if_pos]
    exact Or.inr (List.any_eq_true.mpr
      ⟨((0 : ℕ) : ℚ), List.mem_map.mpr ⟨0, h0, rfl⟩, decide_eq_true (by norm_num)⟩)

theorem mape_objective_spec_witness :
    Mwin.occupancy ≠ [] ∧ (∀ k ∈ Mwin.occupancy, k ≠ 0) ∧
      Mwin.getMape (fun _ => 1) 1 =
        some (mapeQ (Mwin.occupancy.map fun k => ((k : ℕ) : ℚ))
          (((Mwin.setParams fun _ => 1).monteCarlo 1 Mode.sequential).map
            fun z => ((z : ℤ) : ℚ))) :=
  ⟨by decide, by decide, mape_objective_spec.1 Mwin (fun _ => 1) 1 (by decide) (by decide)⟩

theorem clampToBounds_inBounds (bounds : Fin 4 → ℚ × ℚ)
    (hb : ∀ j, (bounds j).1 ≤ (bounds j).2) (v : Fin 4 → ℚ) :
    inBounds bounds (clampToBounds bounds v) := by
  intro j
  constructor
  · exact le_max_left _ _
  · exact max_le (hb j) (min_le_right _ _)

theorem initPop_inBounds (bounds : Fin 4 → ℚ × ℚ) (cfg : DEConfig)
    (hb : ∀ j, (bounds j).1 ≤ (bounds j).2) (x0? : Option (Fin 4 → ℚ)) :
    ∀ x ∈ initPop bounds cfg x0?, inBounds bounds x := by
  intro x hx
  unfold initPop at hx
  cases x0? with
  | none =>
    rcases List.mem_map.mp hx with ⟨i, _, rfl⟩
    exact clampToBounds_inBounds bounds hb _
  | some x0 =>
    rcases hbase : (List.range cfg.npop).map fun i => clampToBounds bounds (cfg.rawInit i) with
      _ | ⟨b0, rest⟩
    · rw [hbase] at hx
      simp at hx
    · rw [hbase] at hx
      rcases List.mem_cons.mp hx with h1 | h2
      · rw [h1]
        exact clampToBounds_inBounds bounds hb _
      · have : x ∈ b0 :: rest := List.mem_cons_of_mem b0 h2
        rw [← hbase] at this
        rcases List.mem_map.mp this with ⟨i, _, rfl⟩
        exact clampToBounds_inBounds bounds hb _

theorem getD_mem_of_lt {α : Type} (l : List α) (j : ℕ) (dflt : α) (h : j < l.length) :
    l.getD j dflt ∈ l := by
  rw [List.getD_eq_getElem l dflt h]
  exact List.getElem_mem h

theorem deStep_inBounds (f : (Fin 4 → ℚ) → ℚ) (bounds : Fin 4 → ℚ × ℚ) (cfg : DEConfig)
    (g : ℕ) (pop : List (Fin 4 → ℚ)) (hb : ∀ j, (bounds j).1 ≤ (bounds j).2)
    (hpop : ∀ x ∈ pop, inBounds bounds x) :
    ∀ y ∈ deStep f bounds cfg g pop, inBounds bounds y := by
  intro y hy
  unfold deStep at hy
  rcases List.mem_map.mp hy with ⟨j, hj, rfl⟩
  have hjlen : j < pop.length := List.mem_range.mp hj
  dsimp only
  split
  · exact clampToBounds_inBounds bounds hb _
  · exact hpop _ (getD_mem_of_lt pop j _ hjlen)

theorem deIter_inBounds (f : (Fin 4 → ℚ) → ℚ) (bounds : Fin 4 → ℚ × ℚ) (cfg : DEConfig)
    (x0? : Option (Fin 4 → ℚ)) (hb : ∀ j, (bounds j).1 ≤ (bounds j).2) (g : ℕ) :
    ∀ x ∈ deIter f bounds cfg x0? g, inBounds bounds x := by
  induction g with
  | zero => exact initPop_inBounds bounds cfg hb x0?
  | succ g ih => exact deStep_inBounds f bounds cfg g _ hb ih

theorem foldl_best_pred (f : (Fin 4 → ℚ) → ℚ) (P : (Fin 4 → ℚ) → Prop)
    (l : List (Fin 4 → ℚ)) (hl : ∀ x ∈ l, P x) :
    ∀ b, P b → P (l.foldl (fun b x => if f x < f b then x else b) b) := by
  induction l with
  | nil => exact fun b hbp => hbp
  | cons a tl ih =>
    intro b hbp
    rw [List.foldl_cons]
    refine ih (fun x hx => hl x (List.mem_cons_of_mem a hx)) _ ?_
    split
    · exact hl a (List.mem_cons_self a tl)
    · exact hbp

theorem bestMember_pred (f : (Fin 4 → ℚ) → ℚ) (P : (Fin 4 → ℚ) → Prop)
    (pop : List (Fin 4 → ℚ)) (hne : pop ≠ []) (hl : ∀ x ∈ pop, P x) :
    P (bestMember f pop) := by
  unfold bestMember
  rcases pop with _ | ⟨p0, rest⟩
  · exact absurd rfl hne
  · refine foldl_best_pred f P _ hl _ ?_
    exact hl p0 (List.mem_cons_self p0 rest)

theorem initPop_length (bounds : Fin 4 → ℚ × ℚ) (cfg : DEConfig)
    (x0? : Option (Fin 4 → ℚ)) :
    (initPop bounds cfg x0?).length = cfg.npop := by
  unfold initPop
  cases x0? with
  | none => simp
  | some x0 =>
    rcases hbase : (List.range cfg.npop).map fun i => clampToBounds bounds (cfg.rawInit i) with
      _ | ⟨b0, rest⟩
    · have := congrArg List.length hbase
      simpa using this.symm
    · have := congrArg List.length hbase
      simp at this
      simpa using this.symm

theorem deStep_length (f : (Fin 4 → ℚ) → ℚ) (bounds : Fin 4 → ℚ × ℚ) (cfg : DEConfig)
    (g : ℕ) (pop : List (Fin 4 → ℚ)) :
    (deStep f bounds cfg g pop).length = pop.length := by
  unfold deStep
  rw [List.length_map, List.length_range]

theorem deIter_length (f : (Fin 4 → ℚ) → ℚ) (bounds : Fin 4 → ℚ × ℚ) (cfg : DEConfig)
    (x0? : Option (Fin 4 → ℚ)) (g : ℕ) :
    (deIter f bounds cfg x0? g).length = cfg.npop := by
  induction g with
  | zero => exact initPop_length bounds cfg x0?
  | succ g ih => rw [deIter, deStep_length, ih]

/-- C3.  For every completed calibration over well-formed bounds (lower bound
at most upper bound componentwise) and a nonempty population, every component
of the returned best parameter vector lies within the supplied bounds,
inclusive: the initial population is created inside the bounds, every trial
vector is clamped into the bounds before selection, and the returned vector is
a member of the final population.  (The optimizer is modelled from the spec —
`scipy.optimize.differential_evolution` is an external library dependency.) -/
theorem calibrate_bounds_respect (m : Model) (nSim : ℕ) (bounds : Fin 4 → ℚ × ℚ)
    (maxiter : ℕ) (cfg : DEConfig) (use_x0 : Bool)
    (hb : ∀ j, (bounds j).1 ≤ (bounds j).2) (hpop : 0 < cfg.npop) :
    inBounds bounds (m.calibrate nSim bounds maxiter cfg use_x0).2 := by
  have hne : deIter (m.objectiveQ nSim) bounds cfg
      (if use_x0 then some m.paramsVec else none) maxiter ≠ [] := by
    intro hcon
    have := deIter_length (m.objectiveQ nSim) bounds cfg
      (if use_x0 then some m.paramsVec else none) maxiter
    rw [hcon] at this
    simp at this
    omega
  exact bestMember_pred _ (inBounds bounds) _ hne
    (deIter_inBounds _ bounds cfg _ hb maxiter)

theorem calibrate_bounds_respect_witness :
    (∀ j : Fin 4, ((fun _ => ((0 : ℚ), (1 : ℚ))) j).1 ≤ ((fun _ => ((0 : ℚ), (1 : ℚ))) j).2) ∧
      (0 : ℕ) < 2 ∧
      inBounds (fun _ => ((0 : ℚ), (1 : ℚ)))
        (Mwin.calibrate 1 (fun _ => ((0 : ℚ), (1 : ℚ))) 1
          { npop := 2, rawInit := fun i j => (i : ℚ) + ((j : ℕ) : ℚ),
            r1 := fun _ _ => 0, r2 := fun _ _ => 1, scaleF := 1 / 2,
            crossMask := fun _ _ _ => true } false).2 :=
  ⟨fun j => by norm_num, by norm_num,
    calibrate_bounds_respect Mwin 1 (fun _ => ((0 : ℚ), (1 : ℚ))) 1
      { npop := 2, rawInit := fun i j => (i : ℚ) + ((j : ℕ) : ℚ),
        r1 := fun _ _ => 0, r2 := fun _ _ => 1, scaleF := 1 / 2,
        crossMask := fun _ _ _ => true } false
      (fun j => by norm_num) (by norm_num)⟩

/-- C6.  Frame of the engine state, per operation.  `simulate` and
`monte_carlo` are embedded as pure functions because their bodies contain no
attribute assignment; `_get_mape` runs on worker-process copies
(`workers=-1`), never on the live object.  `predict` mutates the window
during the call but restores `to_date` and recomputes the cached
case/occupancy arrays from the (deterministic) providers, so on a consistent
state its post-state equals its pre-state — in particular the live parameters
are untouched.  `calibrate` returns a state that differs from the input state
exactly by `setParams` of the returned best vector: the live parameter vector
is written only at the end of calibration, and nothing else (window, caches,
providers, streams) is written at all. -/
theorem state_frame :
    (∀ (m : Model), windowConsistent m → ∀ (days n : ℕ) (mode : Mode),
        (m.predict days n mode).1 = m) ∧
      (∀ (m : Model) (nSim : ℕ) (bounds : Fin 4 → ℚ × ℚ) (maxiter : ℕ)
          (cfg : DEConfig) (use_x0 : Bool),
        (m.calibrate nSim bounds maxiter cfg use_x0).1 =
          m.setParams (m.calibrate nSim bounds maxiter cfg use_x0).2) := by
  constructor
  · intro m h days n mode
    obtain ⟨hc, ho⟩ := h
    rcases m with ⟨p, pl, tl, ts, fd, td, bf, cp, op, dS, sS, cs, oc⟩
    simp only at hc ho
    simp only [Model.predict, Model.update, Option.getD_none, Option.getD_some]
    simp [hc, ho]
  · intro m nSim bounds maxiter cfg use_x0
    rfl

theorem state_frame_witness :
    windowConsistent Mwin ∧ (Mwin.predict 1 1 Mode.sequential).1 = Mwin :=
  ⟨⟨rfl, rfl⟩, state_frame.1 Mwin ⟨rfl, rfl⟩ 1 1 Mode.sequential⟩

theorem insertSorted_mem (x d : ℤ) (l : List ℤ) :
    x ∈ insertSorted d l → x = d ∨ x ∈ l := by
  induction l with
  | nil => simp [insertSorted]
  | cons a tl ih =>
    unfold insertSorted
    split
    · intro hx
      rcases List.mem_cons.mp hx with h1 | h2
      · exact Or.inl h1
      · exact Or.inr h2
    · intro hx
      rcases List.mem_cons.mp hx with h1 | h2
      · exact Or.inr (by rw [h1]; exact List.mem_cons_self a tl)
      · rcases ih h2 with h3 | h4
        · exact Or.inl h3
        · exact Or.inr (List.mem_cons_of_mem a h4)

theorem sortedKeys_mem (x : ℤ) (l : List ℤ) : x ∈ sortedKeys l → x ∈ l := by
  unfold sortedKeys
  intro hx
  have key : ∀ (ds : List ℤ), x ∈ ds.foldr insertSorted [] → x ∈ ds := by
    intro ds
    induction ds with
    | nil => simp
    | cons d rest ih =>
      intro hmem
      rw [List.foldr_cons] at hmem
      rcases insertSorted_mem x d _ hmem with h1 | h2
      · rw [h1]; exact List.mem_cons_self d rest
      · exact List.mem_cons_of_mem d (ih h2)
  exact List.mem_dedup.mp (key _ hx)

theorem diffGo_mem (prev : ℤ × ℤ) (l : List (ℤ × ℤ)) (r : ℤ × Option ℤ) :
    r ∈ diffGo prev l → r.1 ∈ l.map Prod.fst := by
  induction l generalizing prev with
  | nil => simp [diffGo]
  | cons cur rest ih =>
    intro hr
    rcases List.mem_cons.mp hr with h1 | h2
    · rw [h1]
      exact List.mem_cons_self cur.1 _
    · exact List.mem_cons_of_mem cur.1 (ih cur h2)

theorem diffMarked_mem (l : List (ℤ × ℤ)) (r : ℤ × Option ℤ) :
    r ∈ diffMarked l → r.1 ∈ l.map Prod.fst := by
  cases l with
  | nil => simp [diffMarked]
  | cons g0 rest =>
    intro hr
    rcases List.mem_cons.mp hr with h1 | h2
    · rw [h1]
      exact List.mem_cons_self g0.1 _
    · exact List.mem_cons_of_mem g0.1 (diffGo_mem g0 rest r h2)

theorem caseGrouped_fst (rows : List CaseRow) (state : String) (ageGroups : List String) :
    (caseGrouped rows state ageGroups).map Prod.fst =
      sortedKeys ((caseFiltered rows state ageGroups).map fun r => r.time) := by
  unfold caseGrouped
  rw [List.map_map]
  exact List.map_id _

theorem caseWindow_out (rows : List CaseRow) (fromD toD : ℤ) (state : String)
    (ageGroups : List String) (buffer : ℕ)
    (hout : ∀ r ∈ rows, r.time < fromD - (buffer : ℤ) ∨ toD < r.time) :
    caseWindow rows fromD toD state ageGroups buffer = [] := by
  unfold caseWindow
  rw [List.filter_eq_nil_iff]
  intro r hr
  have h1 : r.1 ∈ (caseGrouped rows state ageGroups).map Prod.fst :=
    diffMarked_mem _ r hr
  rw [caseGrouped_fst] at h1
  have h2 : r.1 ∈ (caseFiltered rows state ageGroups).map fun rr => rr.time :=
    sortedKeys_mem _ _ h1
  rcases List.mem_map.mp h2 with ⟨row, hrow, hEq⟩
  have hrows : row ∈ rows :=
    List.mem_of_mem_filter (List.mem_of_mem_filter hrow)
  have := hout row hrows
  simp only [decide_eq_true_eq]
  omega

/-- C7 counterexample.  The available data covers days 0 and 1 only; the
requested window `[10, 20]` (11 calendar days) lies entirely outside it.
Both providers return an empty series as a normal value — no error is raised
— so the data access does not fail fast on an out-of-range window. -/
theorem data_window_truncation_cex :
    occGetArray occRows1 10 20 "Wien" "ICU" = Except.ok [] ∧
      caseGetDf caseRows1 10 20 "Wien" ["25-34"] 0 = Except.ok [] := by
  refine ⟨by rfl, by rfl⟩

/-- C7 (amended).  Requesting a window outside the available data range is
not detected: `get_df` / `get_array` (hence `update`) intersect the requested
window with the available dates and silently return the truncated — possibly
empty — series; in particular a window disjoint from the data yields an empty
series, not an error.  (The only incidental failure is `astype(int)` on the
`NaN` of the first diffed case row when the window reaches back to the first
available day; no range check exists anywhere.) -/
theorem data_window_filter_spec :
    (∀ (rows : List OccRow) (fromD toD : ℤ) (state : String),
        (∀ r ∈ rows, r.meldedatum < fromD ∨ toD < r.meldedatum) →
        occGetDf rows fromD toD state "ICU" = Except.ok []) ∧
      (∀ (rows : List CaseRow) (fromD toD : ℤ) (state : String)
          (ageGroups : List String) (buffer : ℕ),
        (∀ r ∈ rows, r.time < fromD - (buffer : ℤ) ∨ toD < r.time) →
        caseGetDf rows fromD toD state ageGroups buffer = Except.ok []) := by
  constructor
  · intro rows fromD toD state hout
    unfold occGetDf
    rw [if_pos rfl]
    have h2 : (rows.filter fun r => decide (r.bundesland = state)).filter
        (fun r => decide (fromD ≤ r.meldedatum ∧ r.meldedatum ≤ toD)) = [] := by
      rw [List.filter_eq_nil_iff]
      intro r hr
      have := hout r (List.mem_of_mem_filter hr)
      simp only [decide_eq_true_eq]
      omega
    rw [h2]
    rfl
  · intro rows fromD toD state ageGroups buffer hout
    have hw := caseWindow_out rows fromD toD state ageGroups buffer hout
    unfold caseGetDf
    rw [hw]
    rfl

theorem data_window_filter_spec_witness :
    (∀ r ∈ occRows1, r.meldedatum < 10 ∨ 20 < r.meldedatum) ∧
      occGetDf occRows1 10 20 "Wien" "ICU" = Except.ok [] :=
  ⟨by decide, data_window_filter_spec.1 occRows1 10 20 "Wien" (by decide)⟩

/-- C8 counterexample.  `occRows1` contains only the region Wien; for the
unknown region `Steiermark` (with a valid bed-type selector) the data access
returns a normal empty series, `ok []`, instead of surfacing an error — so an
unknown region identifier is not rejected. -/
theorem unknown_region_empty_cex :
    occGetArray occRows1 0 5 "Steiermark" "normal" = Except.ok [] := by
  rfl

/-- C8 (amended).  An unknown bed-type selector (anything other than `ICU`
or `normal`) raises `ValueError` immediately and is not retried; an unknown
region identifier, however, is not validated by either provider: the region
filter simply matches nothing and a normal empty series is returned. -/
theorem invalid_config_spec :
    (∀ (rows : List OccRow) (fromD toD : ℤ) (state btype : String),
        btype ≠ "ICU" → btype ≠ "normal" →
        occGetDf rows fromD toD state btype =
          Except.error "type must be either ICU or normal") ∧
      occGetArray occRows1 0 5 "Atlantis" "ICU" = Except.ok [] ∧
      caseGetDf caseRows1 0 5 "Atlantis" ["25-34"] 0 = Except.ok [] := by
  refine ⟨?_, by rfl, by rfl⟩
  intro rows fromD toD state btype h1 h2
  unfold occGetDf
  rw [if_neg h1, if_neg h2]

theorem invalid_config_spec_witness :
    ("Tent" : String) ≠ "ICU" ∧ ("Tent" : String) ≠ "normal" ∧
      occGetDf occRows1 0 5 "Wien" "Tent" =
        Except.error "type must be either ICU or normal" :=
  ⟨by decide, by decide,
    invalid_config_spec.1 occRows1 0 5 "Wien" "Tent" (by decide) (by decide)⟩
